import Mathlib

/-!
Verification of the revibe LLM backend layer.

This file gives a shallow embedding, in Lean 4, of the pure fragments of the
revibe provider-adapter code (the Qwen thinking-block parser, the Qwen and
Antigravity request/response mappers, the backend registry, the auth-retry
control flow and the token-count probe), together with theorems settling the
stated properties of that code.

Python values appearing on the wire are modelled by the `JVal` JSON type;
Python `None` is `JVal.jnull`.  Strings handled character by character by the
parsers are modelled as `List Char`.
-/

/-- JSON values as produced by `json.loads` / consumed by `json.dumps`.
`jnull` doubles as Python `None` (absent key). -/
inductive JVal where
  | jnull
  | jbool (b : Bool)
  | jnum (n : Int)
  | jstr (s : String)
  | jarr (elems : List JVal)
  | jobj (fields : List (String × JVal))

/-- Escape of one character inside a JSON string literal (the cases Python's
`json.dumps` escapes that matter here: backslash and double quote). -/
def jsonEscapeChar (c : Char) : String :=
  if c = '\\' then "\\\\" else if c = '\"' then "\\\"" else String.singleton c

/-- Rendering of a string as a JSON string literal. -/
def jsonEscape (s : String) : String :=
  "\"" ++ String.join (s.data.map jsonEscapeChar) ++ "\""

mutual
/-- Model of Python `json.dumps` with its default separators. -/
def jsonDumps : JVal → String
  | .jnull => "null"
  | .jbool true => "true"
  | .jbool false => "false"
  | .jnum n => toString n
  | .jstr s => jsonEscape s
  | .jarr xs => "[" ++ jsonDumpsArr xs ++ "]"
  | .jobj fs => "\x7b" ++ jsonDumpsObj fs ++ "\x7d"

/-- Comma-separated rendering of a JSON array body. -/
def jsonDumpsArr : List JVal → String
  | [] => ""
  | [x] => jsonDumps x
  | x :: y :: rest => jsonDumps x ++ ", " ++ jsonDumpsArr (y :: rest)

/-- Comma-separated rendering of a JSON object body. -/
def jsonDumpsObj : List (String × JVal) → String
  | [] => ""
  | [(k, v)] => jsonEscape k ++ ": " ++ jsonDumps v
  | (k, v) :: f :: rest =>
      jsonEscape k ++ ": " ++ jsonDumps v ++ ", " ++ jsonDumpsObj (f :: rest)
end

/-- Python truthiness of a JSON value (`if x:`): `None`, `False`, `0`, `""`,
`[]` and `\x7b\x7d` are falsy. -/
def jTruthy : JVal → Bool
  | .jnull => false
  | .jbool b => b
  | .jnum n => n ≠ 0
  | .jstr s => s ≠ ""
  | .jarr xs => ¬ xs.isEmpty
  | .jobj fs => ¬ fs.isEmpty

/-- Whether a value is a JSON string (used to state the argument-string
invariant). -/
def jIsStr : JVal → Bool
  | .jstr _ => true
  | _ => false

/-- Whether a value is JSON null or a JSON string (the shape the spec demands
of `ToolCall.function.arguments`). -/
def jIsStrOrNull : JVal → Bool
  | .jnull => true
  | .jstr _ => true
  | _ => false

/-- `Role` — from `revibe.core.types` (spec §3): the four message roles. -/
inductive Role where
  | system
  | user
  | assistant
  | tool
deriving DecidableEq

/-- `FunctionCall` from `revibe.core.types`.  The spec types `arguments` as
`string | null`; the embedding keeps the raw value an adapter places in the
field (a `JVal`) so that the normalisation discipline can be stated and
checked. -/
structure FunctionCall where
  name : Option String
  arguments : JVal

/-- `ToolCall` from `revibe.core.types`. -/
structure ToolCall where
  id : Option String
  index : Nat
  function : FunctionCall

/-- `LLMMessage` from `revibe.core.types` (spec §3 `Message`). -/
structure LLMMessage where
  role : Role
  content : Option String := none
  reasoning_content : Option String := none
  tool_calls : Option (List ToolCall) := none
  tool_call_id : Option String := none

/-- `LLMUsage` from `revibe.core.types` (spec §3 `Usage`). -/
structure LLMUsage where
  prompt_tokens : Nat
  completion_tokens : Nat

/-- `LLMChunk` from `revibe.core.types` (spec §3 `Chunk`).  `usage` is optional
because `count_tokens` guards `result.usage is None`. -/
structure LLMChunk where
  message : LLMMessage
  usage : Option LLMUsage

/- ===== Qwen ThinkingBlockParser
   (src/revibe/core/llm/backend/qwen/handler.py, lines 45-97) ===== -/

/-- First occurrence of `tag` inside `l`, as Python `str.find`: `some (b, a)`
means `l = b ++ tag ++ a` with `b` the part before the first occurrence
(`buffer[:idx]`) and `a` the part after it (`buffer[idx + len(tag):]`);
`none` means `find` returned `-1`. -/
def splitAtTag (tag : List Char) : List Char → Option (List Char × List Char)
  | [] => if tag.isEmpty then some ([], []) else none
  | c :: rest =>
      if tag.isPrefixOf (c :: rest) then some ([], (c :: rest).drop tag.length)
      else
        match splitAtTag tag rest with
        | some (b, a) => some (c :: b, a)
        | none => none

/-- State of `ThinkingBlockParser`: `_in_thinking_block` and `_buffer`. -/
structure TBState where
  inThinking : Bool
  buffer : List Char
deriving DecidableEq

/-- The characters of the string "<think>". -/
def thinkOpenTag : List Char := "<think>".data

/-- The characters of the string "</think>". -/
def thinkCloseTag : List Char := "</think>".data

/-- The `while True` loop of `ThinkingBlockParser.parse`.  Each iteration that
continues consumes a whole tag, so `buffer.length + 1` fuel always suffices;
the fuel-0 branch is unreachable for that fuel. -/
def tbLoop : Nat → TBState → List Char → List Char → TBState × List Char × List Char
  | 0, st, reg, rsn => (st, reg, rsn)
  | fuel + 1, st, reg, rsn =>
      if st.inThinking then
        match splitAtTag thinkCloseTag st.buffer with
        | some (before, after) => tbLoop fuel ⟨false, after⟩ reg (rsn ++ before)
        | none => (⟨true, []⟩, reg, rsn ++ st.buffer)
      else
        match splitAtTag thinkOpenTag st.buffer with
        | some (before, after) => tbLoop fuel ⟨true, after⟩ (reg ++ before) rsn
        | none => (⟨false, []⟩, reg ++ st.buffer, rsn)

/-- `ThinkingBlockParser.parse`: append `text` to the buffer, then run the
loop; returns the new state and the `(regular_content, reasoning_content)`
pair emitted by this call. -/
def tbParse (st : TBState) (text : List Char) : TBState × List Char × List Char :=
  let buf := st.buffer ++ text
  tbLoop (buf.length + 1) ⟨st.inThinking, buf⟩ [] []

/-- Feeding a sequence of chunks to a fresh `ThinkingBlockParser`,
concatenating the per-chunk outputs (as the streaming loop does). -/
def tbFeed (chunks : List (List Char)) : TBState × List Char × List Char :=
  chunks.foldl
    (fun acc chunk =>
      let r := tbParse acc.1 chunk
      (r.1, acc.2.1 ++ r.2.1, acc.2.2 ++ r.2.2))
    (⟨false, []⟩, [], [])

/- ===== Qwen streaming cumulative-content handling
   (src/revibe/core/llm/backend/qwen/handler.py, lines 563-576) ===== -/

/-- One step of the cumulative-content detection in Qwen streaming: given the
tracked `full_content` variable and the incoming frame's `delta["content"]`,
returns the emitted delta and the new value of `full_content` (which the code
sets to the incoming frame's content, not to an accumulation). -/
def qwenContentStep (fullContent new : List Char) : List Char × List Char :=
  (if fullContent.isPrefixOf new then new.drop fullContent.length else new, new)

/-- The per-frame deltas produced by folding `qwenContentStep` over the
non-empty `content` fields of a stream's frames, starting from the given
`full_content` value. -/
def qwenDeltasGo (fullContent : List Char) : List (List Char) → List (List Char)
  | [] => []
  | f :: rest =>
      (qwenContentStep fullContent f).1 ::
        qwenDeltasGo (qwenContentStep fullContent f).2 rest

/-- The per-frame deltas of a whole stream (`full_content` starts `""`). -/
def qwenDeltas (frames : List (List Char)) : List (List Char) :=
  qwenDeltasGo [] frames

/-- Modelled from the spec's words for comparison: delta computation where the
comparison string is the *accumulated* prior content (the concatenation of
everything seen so far), as claim C7 states it. -/
def qwenSpecAccumDeltasGo (acc : List Char) : List (List Char) → List (List Char)
  | [] => []
  | f :: rest =>
      (if acc.isPrefixOf f then f.drop acc.length else f) ::
        qwenSpecAccumDeltasGo (acc ++ (if acc.isPrefixOf f then f.drop acc.length else f)) rest

/-- Modelled from the spec's words: the accumulated-content variant of the
delta computation over a whole stream. -/
def qwenSpecAccumDeltas (frames : List (List Char)) : List (List Char) :=
  qwenSpecAccumDeltasGo [] frames

/-- The per-frame deltas characterised frame-by-frame: each frame is compared
with the frame immediately before it (the first frame with `""`). -/
def qwenPrevFrameDeltas (frames : List (List Char)) : List (List Char) :=
  (frames.zip ([] :: frames)).map
    (fun p => if p.2.isPrefixOf p.1 then p.1.drop p.2.length else p.1)

/- ===== Backend registry (src/revibe/core/llm/backend/factory.py) ===== -/

/-- Modelled from the spec: the `Backend` tag enum lives in
`revibe.core.config`, which is not under src/; spec §3 declares exactly these
ten tags. -/
inductive Backend where
  | openai
  | generic
  | mistral
  | groq
  | huggingface
  | ollama
  | llamacpp
  | cerebras
  | qwen
  | antigravity
deriving DecidableEq

/-- The adapter classes the registry maps to (named by the imports of
`factory.py`). -/
inductive AdapterClass where
  | mistralBackend
  | genericBackend
  | openaiBackend
  | huggingFaceBackend
  | groqBackend
deriving DecidableEq

/-- `BACKEND_FACTORY` from `factory.py`: a dict with exactly five entries;
lookup of any other tag fails (`None` from `.get`, `KeyError` from `[]`). -/
def BACKEND_FACTORY : Backend → Option AdapterClass
  | .mistral => some .mistralBackend
  | .generic => some .genericBackend
  | .openai => some .openaiBackend
  | .huggingface => some .huggingFaceBackend
  | .groq => some .groqBackend
  | _ => none

/- ===== Antigravity tool config
   (src/revibe/core/llm/backend/antigravity/__init__.py, lines 239-266) ===== -/

/-- `AvailableFunction` from `revibe.core.types` (spec §3 `AvailableTool`). -/
structure AvailableFunction where
  name : String
  description : Option String := none
  parameters : JVal := .jnull

/-- `AvailableTool` from `revibe.core.types`. -/
structure AvailableTool where
  function : AvailableFunction

/-- A canonical tool-choice input: either a `StrToolChoice` string or a
specific `AvailableTool`. -/
inductive ToolChoice where
  | choiceStr (s : String)
  | choiceTool (t : AvailableTool)

/-- The value of `toolConfig.functionCallingConfig` the adapter builds. -/
structure FunctionCallingConfig where
  mode : String
  allowedFunctionNames : Option (List String) := none
deriving DecidableEq

/-- The `mode_map` dict of `_prepare_tool_config`. -/
def antigravityToolModeMap (s : String) : Option String :=
  if s = "auto" then some "AUTO"
  else if s = "none" then some "NONE"
  else if s = "any" then some "ANY"
  else if s = "required" then some "REQUIRED"
  else none

/-- `AntigravityBackend._prepare_tool_config`: `None` passes through, a string
maps through `mode_map` (default `"AUTO"`), a specific tool yields mode
`"ANY"` with that tool's name allowed. -/
def antigravityPrepareToolConfig : Option ToolChoice → Option FunctionCallingConfig
  | none => none
  | some (.choiceStr s) => some ⟨(antigravityToolModeMap s).getD "AUTO", none⟩
  | some (.choiceTool t) => some ⟨"ANY", some [t.function.name]⟩

/- ===== Antigravity message preparation
   (src/revibe/core/llm/backend/antigravity/__init__.py, lines 152-182) ===== -/

/-- A part of a prepared Antigravity `contents` entry. -/
inductive RequestPart where
  | textPart (s : String)
  | functionResponsePart (name : Option String) (result : String)
deriving DecidableEq

/-- One prepared `contents` entry: a role string and its parts. -/
structure PreparedContent where
  role : String
  parts : List RequestPart
deriving DecidableEq

/-- The `response.result` string for a tool call's arguments: a non-string,
non-None value is `json.dumps`ed; `args or ""` turns `None` (and the empty
string) into `""`. -/
def antigravityFunctionResponseResult : JVal → String
  | .jnull => ""
  | .jstr s => s
  | v => jsonDumps v

/-- `AntigravityBackend._prepare_messages` for one message: role collapses to
"model" for assistant and "user" for everything else; truthy `content`
becomes a text part; each entry of `tool_calls` becomes a
`functionResponse` part whose `response.result` carries that call's
serialised arguments. -/
def antigravityPrepareMessage (msg : LLMMessage) : PreparedContent where
  role := if msg.role = .assistant then "model" else "user"
  parts :=
    (match msg.content with
     | some c => if c ≠ "" then [RequestPart.textPart c] else []
     | none => []) ++
    (match msg.tool_calls with
     | some tcs =>
         tcs.map (fun tc =>
           RequestPart.functionResponsePart tc.function.name
             (antigravityFunctionResponseResult tc.function.arguments))
     | none => [])

/-- `AntigravityBackend._prepare_messages` over a message list. -/
def antigravityPrepareMessages (msgs : List LLMMessage) : List PreparedContent :=
  msgs.map antigravityPrepareMessage

/- ===== Tool-call argument handling across the adapters
   (src/revibe/core/llm/backend/openai.py lines 79-96,
    src/revibe/core/llm/backend/qwen/handler.py lines 226-242 and 583-595,
    src/revibe/core/llm/backend/antigravity/__init__.py lines 268-320) ===== -/

/-- A tool-call entry as it appears in an OpenAI-compatible response frame
(`tool_call["id"]`, `tool_call["index"]`, `tool_call["function"]`); `jnull`
in `fargs` models both JSON null and an absent key. -/
structure OpenAITC where
  id : Option String := none
  index : Option Nat := none
  fname : String
  fargs : JVal

/-- `OpenAIMapper.parse_tool_calls`: the id defaults to "", the index to 0,
and the arguments are kept when already a string, otherwise `json.dumps`ed. -/
def openaiParseToolCalls (tcs : List OpenAITC) : List ToolCall :=
  tcs.map (fun tc =>
    { id := some (tc.id.getD "")
      index := tc.index.getD 0
      function :=
        { name := some tc.fname
          arguments := if jIsStr tc.fargs then tc.fargs else .jstr (jsonDumps tc.fargs) } })

/-- A tool-call entry as it appears on the Qwen wire
(`tc.get("id")`, `tc.get("index")`, `tc.get("function", \x7b\x7d).get(...)`). -/
structure WireToolCall where
  id : Option String := none
  index : Nat
  fname : Option String := none
  fargs : JVal

/-- The tool-call projection shared by `QwenBackend._parse_tool_calls` and the
Qwen streaming loop: every field — the `arguments` value included — is passed
through verbatim, with no serialisation step. -/
def qwenParseToolCalls (tcs : List WireToolCall) : List ToolCall :=
  tcs.map (fun tc =>
    { id := tc.id
      index := tc.index
      function := { name := tc.fname, arguments := tc.fargs } })

/-- A `functionCall` payload on the Gemini wire: `name`, `args` (Gemini) or
`arguments` (OpenAI shape), plus optional `id`/`index`; `jnull` models an
absent key.  The call sites of interest pass the unwrapped payload, so the
`"functionCall" in tc` unwrapping branch is already resolved. -/
structure FCData where
  name : Option String := none
  args : JVal := .jnull
  arguments : JVal := .jnull
  id : Option String := none
  index : Option Nat := none

/-- `fc.get("args") or fc.get("arguments")`: Python `or` falls through on any
falsy `args` value. -/
def antigravityArgsValue (fc : FCData) : JVal :=
  if jTruthy fc.args then fc.args else fc.arguments

/-- The argument normalisation of `AntigravityBackend._parse_tool_calls`: a
dict is `json.dumps`ed, `None` becomes "\x7b\x7d", anything else (a string,
but also a list, number or bool) is passed through. -/
def antigravityNormalizeArgs : JVal → JVal
  | .jobj fields => .jstr (jsonDumps (.jobj fields))
  | .jnull => .jstr "\x7b\x7d"
  | v => v

/-- `AntigravityBackend._parse_tool_calls` on the one-element list its call
sites pass (`[part["functionCall"]]`): id from the payload, index from the
payload with enumeration fallback 0, arguments through
`antigravityNormalizeArgs`. -/
def antigravityParseSingleFC (fc : FCData) : ToolCall where
  id := fc.id
  index := fc.index.getD 0
  function :=
    { name := fc.name
      arguments := antigravityNormalizeArgs (antigravityArgsValue fc) }

/- ===== Antigravity response parts
   (src/revibe/core/llm/backend/antigravity/__init__.py, lines 481-523 and
    612-645) ===== -/

/-- A part of a Gemini-style response candidate: optional `text`, a `thought`
flag, and an optional `functionCall` payload.  An `Option.some` payload
models a truthy (non-empty) dict. -/
structure GPart where
  text : Option String := none
  thought : Bool := false
  functionCall : Option FCData := none

/-- `text_content` accumulation of the non-streaming parse: truthy `text`
fields concatenated in part order. -/
def antigravityExtractText (parts : List GPart) : String :=
  parts.foldl
    (fun acc p =>
      match p.text with
      | some t => if t ≠ "" then acc ++ t else acc
      | none => acc)
    ""

/-- `reasoning_content` of the non-streaming parse: the `text` of the last
part whose `thought` is truthy (`None` when there is none). -/
def antigravityExtractReasoning (parts : List GPart) : Option String :=
  parts.foldl (fun acc p => if p.thought then p.text else acc) none

/-- The first part carrying a truthy `functionCall`, as found by the
`for part in parts: ... break` loop of the non-streaming parse. -/
def antigravityFirstFunctionCall : List GPart → Option FCData
  | [] => none
  | p :: rest =>
      match p.functionCall with
      | some fc => some fc
      | none => antigravityFirstFunctionCall rest

/-- The assistant message assembled by `_complete_with_retry` from a
candidate's parts: concatenated text (None when empty), last thought text,
and the tool calls parsed from the *first* `functionCall` part only. -/
def antigravityCompleteParse (parts : List GPart) : LLMMessage where
  role := .assistant
  content := if antigravityExtractText parts ≠ "" then some (antigravityExtractText parts) else none
  reasoning_content := antigravityExtractReasoning parts
  tool_calls := (antigravityFirstFunctionCall parts).map (fun fc => [antigravityParseSingleFC fc])
  tool_call_id := none

/- ===== count_tokens probe
   (src/revibe/core/llm/backend/qwen/handler.py lines 656-687 and
    src/revibe/core/llm/backend/antigravity/__init__.py lines 828-859;
    the two method bodies are identical) ===== -/

/-- The empty user message appended by the probe:
`LLMMessage(role=Role.user, content="")`. -/
def emptyUserMessage : LLMMessage := { role := .user, content := some "" }

/-- The probe message list of `count_tokens`: a copy of the caller's list
(so the caller's list is never mutated), with one empty user message
appended when the list is empty or its last message is not from the user. -/
def countTokensProbe (msgs : List LLMMessage) : List LLMMessage :=
  match msgs.getLast? with
  | none => msgs ++ [emptyUserMessage]
  | some m => if m.role ≠ .user then msgs ++ [emptyUserMessage] else msgs

/-- `count_tokens`, with the adapter's `complete` abstracted as an oracle
taking the prepared messages and the `max_tokens` argument: issues one
completion over the probe list with `max_tokens=1` and returns the result's
`usage.prompt_tokens`, failing when usage is missing. -/
def countTokens (complete : List LLMMessage → Option Nat → LLMChunk)
    (msgs : List LLMMessage) : Except String Nat :=
  match (complete (countTokensProbe msgs) (some 1)).usage with
  | none => .error "Missing usage in non streaming completion"
  | some u => .ok u.prompt_tokens

/- ===== Auth retry
   (src/revibe/core/llm/backend/qwen/handler.py lines 279-397, especially
    359-375, and src/revibe/core/llm/backend/antigravity/__init__.py lines
    441-559, especially 525-537) ===== -/

/-- The outcome of one upstream POST, indexed by the attempt number: either a
parsed result or an HTTP status error (`httpx.HTTPStatusError`). -/
inductive UpstreamResult (α : Type) where
  | ok (d : α)
  | httpError (status : Nat)

/-- Modelled from the spec: the error kinds of
`revibe.core.llm.exceptions.BackendErrorBuilder` (the module is not under
src/); spec §4.2 maps HTTP status to kind: 401/403 → AuthError, 429 →
RateLimitError, other 4xx → BadRequestError, 5xx → ServerError. -/
inductive BackendErrorKind where
  | authError
  | rateLimitError
  | badRequestError
  | serverError
deriving DecidableEq

/-- Modelled from the spec: `BackendErrorBuilder.build_http_error`'s
status-to-kind classification (spec §4.2). -/
def buildHttpErrorKind (status : Nat) : BackendErrorKind :=
  if status = 401 ∨ status = 403 then .authError
  else if status = 429 then .rateLimitError
  else if status < 500 then .badRequestError
  else .serverError

/-- The second attempt of `QwenBackend._complete_with_retry`
(`_retry_count = 1`, hence `force_refresh = True`): its 401 branch fails the
`_retry_count == 0` test, so any HTTP error is built and raised.  The `Bool`
list records the `force_refresh` flag of each upstream request issued. -/
def qwenSecondAttempt {α : Type} (resp : Nat → UpstreamResult α) :
    Except BackendErrorKind α × List Bool :=
  match resp 1 with
  | .ok d => (.ok d, [true])
  | .httpError s => (.error (buildHttpErrorKind s), [true])

/-- `QwenBackend._complete_with_retry` from `_retry_count = 0`
(`force_refresh = False`): on HTTP 401 with an OAuth manager present it
recurses exactly once with `_retry_count = 1`; any other failure is built
and raised at once. -/
def qwenCompleteWithRetry {α : Type} (hasOauthManager : Bool)
    (resp : Nat → UpstreamResult α) : Except BackendErrorKind α × List Bool :=
  match resp 0 with
  | .ok d => (.ok d, [false])
  | .httpError s =>
      if s = 401 ∧ hasOauthManager = true then
        ((qwenSecondAttempt resp).1, false :: (qwenSecondAttempt resp).2)
      else (.error (buildHttpErrorKind s), [false])

/-- The second attempt of `AntigravityBackend._complete_with_retry`
(`_retry_count = 1`, `force_refresh = True`): `_retry_count == 0` fails, so
any HTTP error is built and raised. -/
def antigravitySecondAttempt {α : Type} (resp : Nat → UpstreamResult α) :
    Except BackendErrorKind α × List Bool :=
  match resp 1 with
  | .ok d => (.ok d, [true])
  | .httpError s => (.error (buildHttpErrorKind s), [true])

/-- `AntigravityBackend._complete_with_retry` from `_retry_count = 0`:
a status in `RETRYABLE_STATUS_CODES = (401, 403)` triggers exactly one
recursion with `_retry_count = 1`. -/
def antigravityCompleteWithRetry {α : Type} (resp : Nat → UpstreamResult α) :
    Except BackendErrorKind α × List Bool :=
  match resp 0 with
  | .ok d => (.ok d, [false])
  | .httpError s =>
      if s = 401 ∨ s = 403 then
        ((antigravitySecondAttempt resp).1, false :: (antigravitySecondAttempt resp).2)
      else (.error (buildHttpErrorKind s), [false])

/- ===== Antigravity streaming tool-call index assignment
   (src/revibe/core/llm/backend/antigravity/__init__.py, lines 612-645 and
    698-753) ===== -/

/-- The last part carrying a truthy `functionCall`: the streaming
`_handle_chunk_data` loop overwrites `tool_calls` at every functionCall
part, so only the last one survives. -/
def antigravityLastFunctionCall : List GPart → Option FCData
  | [] => none
  | p :: rest =>
      match antigravityLastFunctionCall rest with
      | some fc => some fc
      | none => p.functionCall

/-- `AntigravityBackend._handle_chunk_data`: one pass over a chunk's parts
accumulating content, overwriting `reasoning_content` at each thought part
and `tool_calls` at each functionCall part. -/
def antigravityHandleChunkData (parts : List GPart) :
    String × String × Option (List ToolCall) :=
  parts.foldl
    (fun acc p =>
      ((match p.text with
        | some t => if t ≠ "" then acc.1 ++ t else acc.1
        | none => acc.1),
       (if p.thought then p.text.getD "" else acc.2.1),
       (match p.functionCall with
        | some fc => some [antigravityParseSingleFC fc]
        | none => acc.2.2)))
    ("", "", none)

/-- The `tool_call_index_tracker` dict (kept in insertion order) and the
`next_tool_call_index` counter of the streaming loop. -/
structure ToolIdxState where
  tracker : List (String × Nat)
  next : Nat

/-- Dict lookup in the insertion-ordered tracker. -/
def trackerLookup : List (String × Nat) → String → Option Nat
  | [], _ => none
  | (k, v) :: rest, n => if k = n then some v else trackerLookup rest n

/-- The per-ToolCall body of the index-assignment loop: a truthy name is
looked up (a new name is inserted with the next free index) and the call's
index is overwritten with the tracked value; calls without a truthy name are
left as parsed. -/
def assignIdxOne (st : ToolIdxState) (tc : ToolCall) : ToolIdxState × ToolCall :=
  match tc.function.name with
  | none => (st, tc)
  | some n =>
      if n = "" then (st, tc)
      else
        match trackerLookup st.tracker n with
        | some i => (st, { tc with index := i })
        | none =>
            (⟨st.tracker ++ [(n, st.next)], st.next + 1⟩,
              { tc with index := st.next })

/-- The `for tc in tool_calls` loop of the index assignment. -/
def assignIdxList (st : ToolIdxState) : List ToolCall → ToolIdxState × List ToolCall
  | [] => (st, [])
  | tc :: rest =>
      ((assignIdxList (assignIdxOne st tc).1 rest).1,
        (assignIdxOne st tc).2 :: (assignIdxList (assignIdxOne st tc).1 rest).2)

/-- The streaming loop over a stream's chunks: each chunk's parts go through
`_handle_chunk_data`, and the resulting tool calls (when any) get indices
assigned through the shared tracker state. -/
def antigravityStreamChunks (st : ToolIdxState) :
    List (List GPart) → List (Option (List ToolCall))
  | [] => []
  | parts :: rest =>
      match (antigravityHandleChunkData parts).2.2 with
      | none => none :: antigravityStreamChunks st rest
      | some tcs =>
          some (assignIdxList st tcs).2 ::
            antigravityStreamChunks (assignIdxList st tcs).1 rest

/-- All tool calls emitted across a stream, in order, from a given state. -/
def streamEmitted (st : ToolIdxState) (chunks : List (List GPart)) : List ToolCall :=
  ((antigravityStreamChunks st chunks).filterMap id).join

/-- All tool calls emitted across a stream, from the fresh tracker. -/
def antigravityStreamToolCalls (chunks : List (List GPart)) : List ToolCall :=
  streamEmitted ⟨[], 0⟩ chunks

/-- The (name, index) pairs of the tool calls carrying a truthy name. -/
def namedPairs (tcs : List ToolCall) : List (String × Nat) :=
  tcs.filterMap
    (fun tc =>
      match tc.function.name with
      | some n => if n = "" then none else some (n, tc.index)
      | none => none)

/-- The truthy function names of a tool-call list, in order. -/
def toolCallNames (tcs : List ToolCall) : List String :=
  (namedPairs tcs).map Prod.fst

/-- First occurrences of the names in a list, in first-appearance order
(accumulator form, so it evaluates by kernel reduction). -/
def firstOccsAux (seen : List String) : List String → List String
  | [] => seen
  | n :: rest =>
      if n ∈ seen then firstOccsAux seen rest
      else firstOccsAux (seen ++ [n]) rest

/-- First occurrences of the names in a list, in first-appearance order. -/
def firstOccs (l : List String) : List String := firstOccsAux [] l

/-- Position of the first occurrence of a name in a list. -/
def idxOfStr : List String → String → Nat
  | [], _ => 0
  | k :: rest, n => if k = n then 0 else idxOfStr rest n + 1

/-- The tracker contents matching a first-appearance list, numbered from
`k`. -/
def enumFrom (k : Nat) : List String → List (String × Nat)
  | [] => []
  | n :: rest => (n, k) :: enumFrom (k + 1) rest

/-- The invariant the streaming loop maintains: the tracker holds exactly the
first occurrences of the names processed so far, numbered 0,1,..., and the
counter is their count. -/
def TrackerInv (st : ToolIdxState) (pre : List String) : Prop :=
  st.tracker = enumFrom 0 (firstOccs pre) ∧ st.next = (firstOccs pre).length


/-- A chunk part carrying only a functionCall with the given name (Gemini
`args` absent). -/
def gpFC (n : String) : GPart :=
  { functionCall := some { name := some n } }

/- ===== Theorems ===== -/

/-- Claim C1: splitting the input into chunks should not change the parser's
`(content, reasoning)` output; on the spec's own scenario S3 — chunks
"A<thi", "nk>B</thi", "nk>C" — the code instead emits the partial tags as
regular content (it clears the buffer instead of retaining up to 7/8 held
bytes), yielding content "A<think>B</think>C" and reasoning "", while the
unsplit input yields content "AC" and reasoning "B".  This theorem evaluates
the embedded parser at that failing input, exhibiting the divergence. -/
theorem qwen_thinking_parser_chunk_split_divergence :
    (tbFeed ["A<thi".data, "nk>B</thi".data, "nk>C".data]).2
        = ("A<think>B</think>C".data, ([] : List Char))
      ∧ (tbFeed ["A<think>B</think>C".data]).2 = ("AC".data, "B".data)
      ∧ (tbFeed ["A<thi".data, "nk>B</thi".data, "nk>C".data]).2
        ≠ (tbFeed ["A<think>B</think>C".data]).2 := by
  refine ⟨by decide, by decide, by decide⟩

/-- Claim C7 counterexample: on frames "ab", "cd", "cde" the code emits
deltas "ab", "cd", "e" — the third frame is treated as cumulative because it
extends the *previous frame's* content "cd" — whereas comparison with the
accumulated prior content "abcd" (the claim as stated) would emit the whole
"cde" as an append. -/
theorem qwen_cumulative_accumulated_counterexample :
    qwenDeltas ["ab".data, "cd".data, "cde".data]
        = ["ab".data, "cd".data, "e".data]
      ∧ qwenSpecAccumDeltas ["ab".data, "cd".data, "cde".data]
        = ["ab".data, "cd".data, "cde".data]
      ∧ qwenDeltas ["ab".data, "cd".data, "cde".data]
        ≠ qwenSpecAccumDeltas ["ab".data, "cd".data, "cde".data] := by
  refine ⟨by decide, by decide, by decide⟩

/-- Helper: the fold computing Qwen deltas equals the zip-with-predecessor
characterisation, for any starting `full_content`. -/
theorem qwenDeltasGo_eq_zip (frames : List (List Char)) :
    ∀ prev, qwenDeltasGo prev frames
      = (frames.zip (prev :: frames)).map
          (fun p => if p.2.isPrefixOf p.1 then p.1.drop p.2.length else p.1) := by
  induction frames with
  | nil => intro prev; rfl
  | cons f rest ih =>
      intro prev
      simp [qwenDeltasGo, qwenContentStep, List.zip, ih f]

/-- Claim C7 (amended): in Qwen streaming the delta of each frame is computed
against the content string of the immediately preceding frame (the tracked
`full_content`, initialised to ""), not against the accumulated prior
content: when the frame's content starts with the previous frame's content,
only the suffix is emitted; otherwise the whole content string is emitted as
an append. -/
theorem qwen_cumulative_detection_prev_frame (frames : List (List Char)) :
    qwenDeltas frames = qwenPrevFrameDeltas frames := by
  unfold qwenDeltas qwenPrevFrameDeltas
  exact qwenDeltasGo_eq_zip frames []

/-- Claim C3 counterexample: the declared tag `qwen` (likewise `antigravity`,
`ollama`, `llamacpp`, `cerebras`) is absent from `BACKEND_FACTORY`, so the
registry lookup the claim asserts to succeed fails. -/
theorem backend_registry_missing_tags :
    BACKEND_FACTORY .qwen = none
      ∧ BACKEND_FACTORY .antigravity = none
      ∧ BACKEND_FACTORY .ollama = none
      ∧ BACKEND_FACTORY .llamacpp = none
      ∧ BACKEND_FACTORY .cerebras = none := by
  refine ⟨rfl, rfl, rfl, rfl, rfl⟩

/-- Claim C3 (amended): exactly five of the ten declared backend tags are
registered — mistral, generic, openai, huggingface and groq, each mapped to
its adapter class — and the remaining five (ollama, llamacpp, cerebras, qwen,
antigravity) are not in the registry. -/
theorem backend_registry_contents :
    BACKEND_FACTORY .mistral = some .mistralBackend
      ∧ BACKEND_FACTORY .generic = some .genericBackend
      ∧ BACKEND_FACTORY .openai = some .openaiBackend
      ∧ BACKEND_FACTORY .huggingface = some .huggingFaceBackend
      ∧ BACKEND_FACTORY .groq = some .groqBackend
      ∧ ((BACKEND_FACTORY .ollama).isNone
          ∧ (BACKEND_FACTORY .llamacpp).isNone
          ∧ (BACKEND_FACTORY .cerebras).isNone
          ∧ (BACKEND_FACTORY .qwen).isNone
          ∧ (BACKEND_FACTORY .antigravity).isNone) := by
  refine ⟨rfl, rfl, rfl, rfl, rfl, rfl, rfl, rfl, rfl, rfl⟩

/-- Claim C8 counterexample: the claim (spec §4.4 table) maps tool_choice
"any" to mode REQUIRED, but the adapter's `mode_map` sends "any" to mode
"ANY". -/
theorem antigravity_tool_choice_any_counterexample :
    antigravityPrepareToolConfig (some (.choiceStr "any")) = some ⟨"ANY", none⟩
      ∧ antigravityPrepareToolConfig (some (.choiceStr "any"))
        ≠ some ⟨"REQUIRED", none⟩ := by
  refine ⟨rfl, by decide⟩

/-- Claim C8 (amended): the adapter maps "auto" to mode AUTO, "none" to NONE,
"required" to REQUIRED, "any" to ANY (not REQUIRED), any other string to
AUTO, a specific tool T to mode ANY with allowedFunctionNames [T], and a
missing tool_choice to no toolConfig. -/
theorem antigravity_tool_choice_mapping :
    antigravityPrepareToolConfig (some (.choiceStr "auto")) = some ⟨"AUTO", none⟩
      ∧ antigravityPrepareToolConfig (some (.choiceStr "none")) = some ⟨"NONE", none⟩
      ∧ antigravityPrepareToolConfig (some (.choiceStr "required"))
        = some ⟨"REQUIRED", none⟩
      ∧ antigravityPrepareToolConfig (some (.choiceStr "any")) = some ⟨"ANY", none⟩
      ∧ (∀ t : AvailableTool,
          antigravityPrepareToolConfig (some (.choiceTool t))
            = some ⟨"ANY", some [t.function.name]⟩)
      ∧ (∀ s : String, s ≠ "auto" → s ≠ "none" → s ≠ "any" → s ≠ "required" →
          antigravityPrepareToolConfig (some (.choiceStr s)) = some ⟨"AUTO", none⟩)
      ∧ antigravityPrepareToolConfig none = none := by
  refine ⟨rfl, rfl, rfl, rfl, fun t => rfl, ?_, rfl⟩
  intro s h1 h2 h3 h4
  simp [antigravityPrepareToolConfig, antigravityToolModeMap, h1, h2, h3, h4]

/-- Witness for `antigravity_tool_choice_mapping`: the unknown-string and
specific-tool conjuncts at concrete inputs. -/
theorem antigravity_tool_choice_mapping_witness :
    antigravityPrepareToolConfig (some (.choiceStr "xyz")) = some ⟨"AUTO", none⟩
      ∧ antigravityPrepareToolConfig (some (.choiceTool ⟨⟨"read_file", none, .jnull⟩⟩))
        = some ⟨"ANY", some ["read_file"]⟩ :=
  ⟨(antigravity_tool_choice_mapping).2.2.2.2.2.1 "xyz"
      (by decide) (by decide) (by decide) (by decide),
    (antigravity_tool_choice_mapping).2.2.2.2.1 ⟨⟨"read_file", none, .jnull⟩⟩⟩

/-- Claim C6 counterexample: a `role = tool` message carrying the tool output
"out" is prepared as a plain text part under role "user" — not as a
`functionResponse` part whose `response.result` is "out", as the claim
states. -/
theorem antigravity_tool_message_counterexample :
    antigravityPrepareMessage
        { role := .tool, content := some "out", tool_call_id := some "call_1" }
      = ⟨"user", [RequestPart.textPart "out"]⟩
      ∧ ∀ n r,
          RequestPart.functionResponsePart n r ∉
            (antigravityPrepareMessage
              { role := .tool, content := some "out",
                tool_call_id := some "call_1" }).parts := by
  constructor
  · rfl
  · intro n r h
    simp [antigravityPrepareMessage] at h

/-- Claim C6 (amended): a `role = tool` message (which per the data-model
invariant carries no `tool_calls`) is prepared under role "user" with its
content as plain text parts only; `functionResponse` parts arise instead
from messages carrying `tool_calls`, and their `response.result` holds the
call's serialised *arguments*, not a tool output. -/
theorem antigravity_tool_message_prepared :
    (∀ m : LLMMessage, m.role = .tool → m.tool_calls = none →
        (antigravityPrepareMessage m).role = "user"
          ∧ ∀ p ∈ (antigravityPrepareMessage m).parts,
              ∃ s, p = RequestPart.textPart s ∧ m.content = some s)
      ∧ (∀ (m : LLMMessage) (tcs : List ToolCall), m.tool_calls = some tcs →
          ∀ tc ∈ tcs,
            RequestPart.functionResponsePart tc.function.name
                (antigravityFunctionResponseResult tc.function.arguments)
              ∈ (antigravityPrepareMessage m).parts) := by
  constructor
  · intro m hrole htc
    constructor
    · simp [antigravityPrepareMessage, hrole]
    · intro p hp
      simp only [antigravityPrepareMessage, htc, List.append_nil] at hp
      match hc : m.content with
      | none => rw [hc] at hp; simp at hp
      | some c =>
          rw [hc] at hp
          by_cases hce : c = ""
          · simp [hce] at hp
          · simp [hce] at hp
            exact ⟨c, hp, rfl⟩
  · intro m tcs htc tc htcmem
    simp only [antigravityPrepareMessage, htc]
    refine List.mem_append_right _ ?_
    exact List.mem_map_of_mem _ htcmem

/-- Witness for `antigravity_tool_message_prepared`: the tool message with
content "out" maps to role "user", and an assistant message with a tool call
whose arguments are the string "x" yields a functionResponse part carrying
"x". -/
theorem antigravity_tool_message_prepared_witness :
    (antigravityPrepareMessage
        { role := .tool, content := some "out", tool_call_id := some "call_1" }).role
      = "user"
      ∧ RequestPart.functionResponsePart (some "f") "x"
        ∈ (antigravityPrepareMessage
            { role := .assistant,
              tool_calls := some [⟨some "c1", 0, ⟨some "f", .jstr "x"⟩⟩] }).parts :=
  ⟨(antigravity_tool_message_prepared.1
      { role := .tool, content := some "out", tool_call_id := some "call_1" }
      rfl rfl).1,
    antigravity_tool_message_prepared.2
      { role := .assistant, tool_calls := some [⟨some "c1", 0, ⟨some "f", .jstr "x"⟩⟩] }
      [⟨some "c1", 0, ⟨some "f", .jstr "x"⟩⟩] rfl
      ⟨some "c1", 0, ⟨some "f", .jstr "x"⟩⟩ (List.mem_singleton.mpr rfl)⟩

/-- Claim C5 counterexample: when a Qwen frame supplies `arguments` as a JSON
object, the Qwen adapter emits that parsed object unchanged — the emitted
`function.arguments` is neither null nor a string. -/
theorem qwen_arguments_object_counterexample :
    (qwenParseToolCalls
        [{ index := 0, fname := some "f", fargs := .jobj [("a", .jnum 1)] }]).map
        (fun tc => tc.function.arguments)
      = [.jobj [("a", .jnum 1)]]
      ∧ jIsStrOrNull (.jobj [("a", .jnum 1)]) = false := by
  exact ⟨rfl, rfl⟩

/-- Claim C5 (amended): the OpenAI-compatible mapper always emits `arguments`
as a string (serialising any non-string value); the Antigravity parser emits
a string whenever the upstream value is an object, null, or already a
string; the Qwen adapter forwards the upstream value verbatim, so its
emitted `arguments` is null-or-string exactly when the upstream value
already was. -/
theorem adapter_arguments_normalisation :
    (∀ tcs : List OpenAITC, ∀ tc ∈ openaiParseToolCalls tcs,
        jIsStr tc.function.arguments = true)
      ∧ (∀ fc : FCData, jIsStrOrNull (antigravityArgsValue fc) = true
            ∨ (∃ fields, antigravityArgsValue fc = .jobj fields) →
          jIsStr (antigravityParseSingleFC fc).function.arguments = true)
      ∧ (∀ tcs : List WireToolCall, ∀ tc ∈ qwenParseToolCalls tcs,
          ∃ w ∈ tcs, tc.function.arguments = w.fargs
            ∧ jIsStrOrNull tc.function.arguments = jIsStrOrNull w.fargs) := by
  refine ⟨?_, ?_, ?_⟩
  · intro tcs tc htc
    simp only [openaiParseToolCalls, List.mem_map] at htc
    obtain ⟨w, -, rfl⟩ := htc
    dsimp only
    by_cases h : jIsStr w.fargs = true
    · rw [if_pos h]; exact h
    · rw [if_neg h]; rfl
  · intro fc h
    rcases h with h | ⟨fields, h⟩
    · match hv : antigravityArgsValue fc with
      | .jnull => simp [antigravityParseSingleFC, antigravityNormalizeArgs, hv, jIsStr]
      | .jstr s => simp [antigravityParseSingleFC, antigravityNormalizeArgs, hv, jIsStr]
      | .jbool b => rw [hv] at h; simp [jIsStrOrNull] at h
      | .jnum n => rw [hv] at h; simp [jIsStrOrNull] at h
      | .jarr xs => rw [hv] at h; simp [jIsStrOrNull] at h
      | .jobj fs => rw [hv] at h; simp [jIsStrOrNull] at h
    · simp [antigravityParseSingleFC, antigravityNormalizeArgs, h, jIsStr]
  · intro tcs tc htc
    simp only [qwenParseToolCalls, List.mem_map] at htc
    obtain ⟨w, hw, rfl⟩ := htc
    exact ⟨w, hw, rfl, rfl⟩

/-- Witness for `adapter_arguments_normalisation`: each conjunct applied at
a concrete input — an OpenAI tool call whose arguments arrive as an object,
an Antigravity payload with object args, and a Qwen tool call with string
arguments. -/
theorem adapter_arguments_normalisation_witness :
    jIsStr (⟨some "", 0, ⟨some "f", .jstr (jsonDumps (.jobj [("p", .jstr "q")]))⟩⟩
        : ToolCall).function.arguments = true
      ∧ jIsStr (antigravityParseSingleFC
            ⟨some "g", .jobj [("x", .jnum 2)], .jnull, none, none⟩).function.arguments
        = true
      ∧ ∃ w ∈ [(⟨none, 0, some "h", .jstr "\x7b\x7d"⟩ : WireToolCall)],
          (⟨none, 0, ⟨some "h", .jstr "\x7b\x7d"⟩⟩
            : ToolCall).function.arguments = w.fargs := by
  refine ⟨?_, ?_, ?_⟩
  · exact adapter_arguments_normalisation.1
      [⟨none, none, "f", .jobj [("p", .jstr "q")]⟩]
      ⟨some "", 0, ⟨some "f", .jstr (jsonDumps (.jobj [("p", .jstr "q")]))⟩⟩
      (List.mem_singleton.mpr rfl)
  · exact adapter_arguments_normalisation.2.1
      ⟨some "g", .jobj [("x", .jnum 2)], .jnull, none, none⟩
      (Or.inr ⟨[("x", .jnum 2)], rfl⟩)
  · obtain ⟨w, hw, heq, -⟩ := adapter_arguments_normalisation.2.2
      [⟨none, 0, some "h", .jstr "\x7b\x7d"⟩]
      ⟨none, 0, ⟨some "h", .jstr "\x7b\x7d"⟩⟩
      (List.mem_singleton.mpr rfl)
    exact ⟨w, hw, heq⟩

/-- Helper: the first-functionCall scan over a list whose prefix carries no
functionCall finds the payload of the first carrier. -/
theorem antigravityFirstFunctionCall_append (pre post : List GPart) (p : GPart)
    (fc : FCData) (hpre : ∀ q ∈ pre, q.functionCall = none)
    (hp : p.functionCall = some fc) :
    antigravityFirstFunctionCall (pre ++ p :: post) = some fc := by
  induction pre with
  | nil => simp [antigravityFirstFunctionCall, hp]
  | cons q rest ih =>
      have hq : q.functionCall = none := hpre q (List.mem_cons_self q rest)
      simp only [List.cons_append, antigravityFirstFunctionCall, hq]
      exact ih fun r hr => hpre r (List.mem_cons_of_mem q hr)

/-- Claim C9: in the non-streaming Antigravity parse, when the candidate's
parts contain a `functionCall` part, `tool_calls` holds exactly the one
`ToolCall` parsed from the first such part, whatever `functionCall` parts
follow it. -/
theorem antigravity_nonstreaming_first_function_call_only
    (pre post : List GPart) (p : GPart) (fc : FCData)
    (hpre : ∀ q ∈ pre, q.functionCall = none) (hp : p.functionCall = some fc) :
    (antigravityCompleteParse (pre ++ p :: post)).tool_calls
      = some [antigravityParseSingleFC fc] := by
  simp only [antigravityCompleteParse,
    antigravityFirstFunctionCall_append pre post p fc hpre hp]
  rfl

/-- Witness for `antigravity_nonstreaming_first_function_call_only`: a
candidate with two functionCall parts keeps only the first ("g1"); the
second ("g2") is discarded. -/
theorem antigravity_nonstreaming_first_function_call_only_witness :
    (antigravityCompleteParse
        [⟨none, false, some ⟨some "g1", .jnull, .jnull, none, none⟩⟩,
         ⟨none, false, some ⟨some "g2", .jnull, .jnull, none, none⟩⟩]).tool_calls
      = some [antigravityParseSingleFC ⟨some "g1", .jnull, .jnull, none, none⟩] :=
  antigravity_nonstreaming_first_function_call_only
    [] [⟨none, false, some ⟨some "g2", .jnull, .jnull, none, none⟩⟩]
    ⟨none, false, some ⟨some "g1", .jnull, .jnull, none, none⟩⟩
    ⟨some "g1", .jnull, .jnull, none, none⟩
    (fun q hq => absurd hq (List.not_mem_nil q)) rfl

/-- Claim C10: when the message list is empty or does not end with a user
message, the probe is the caller's list with exactly one empty user message
appended (the original list is untouched — the code copies it first), the
probe completion is issued with `max_tokens=1`, and the returned count is
that completion's `usage.prompt_tokens`. -/
theorem count_tokens_appends_empty_user
    (complete : List LLMMessage → Option Nat → LLMChunk) (msgs : List LLMMessage)
    (h : msgs = [] ∨ ∃ m, msgs.getLast? = some m ∧ m.role ≠ .user)
    (u : LLMUsage) (hu : (complete (msgs ++ [emptyUserMessage]) (some 1)).usage = some u) :
    countTokensProbe msgs = msgs ++ [emptyUserMessage]
      ∧ countTokens complete msgs = .ok u.prompt_tokens := by
  have hprobe : countTokensProbe msgs = msgs ++ [emptyUserMessage] := by
    rcases h with rfl | ⟨m, hm, hrole⟩
    · rfl
    · simp [countTokensProbe, hm, hrole]
  refine ⟨hprobe, ?_⟩
  simp [countTokens, hprobe, hu]

/-- Witness for `count_tokens_appends_empty_user`: the empty message list
with an oracle reporting 5 prompt tokens yields `.ok 5`. -/
theorem count_tokens_appends_empty_user_witness :
    countTokens
        (fun _ _ => ⟨{ role := .assistant }, some ⟨5, 0⟩⟩) [] = .ok 5 :=
  (count_tokens_appends_empty_user
    (fun _ _ => ⟨{ role := .assistant }, some ⟨5, 0⟩⟩) []
    (Or.inl rfl) ⟨5, 0⟩ rfl).2

/-- Claim C4: for OAuth-authenticated requests, a first-attempt 401 (Qwen) or
401/403 (Antigravity) triggers exactly one further attempt with
`force_refresh = true`; 401-then-success completes with exactly two upstream
requests; two auth failures raise AuthError after exactly two upstream
requests, with no third attempt.  The `List Bool` component records the
`force_refresh` flag of each request issued, in order. -/
theorem oauth_auth_retry_exactly_once {α : Type}
    (resp respA : Nat → UpstreamResult α) :
    (∀ d : α, resp 0 = .httpError 401 → resp 1 = .ok d →
        qwenCompleteWithRetry true resp = (.ok d, [false, true]))
      ∧ (resp 0 = .httpError 401 → resp 1 = .httpError 401 →
          qwenCompleteWithRetry true resp = (.error .authError, [false, true]))
      ∧ (∀ (d : α) (s : Nat), s = 401 ∨ s = 403 →
          respA 0 = .httpError s → respA 1 = .ok d →
          antigravityCompleteWithRetry respA = (.ok d, [false, true]))
      ∧ (∀ s s2 : Nat, (s = 401 ∨ s = 403) → (s2 = 401 ∨ s2 = 403) →
          respA 0 = .httpError s → respA 1 = .httpError s2 →
          antigravityCompleteWithRetry respA = (.error .authError, [false, true])) := by
  refine ⟨?_, ?_, ?_, ?_⟩
  · intro d h0 h1
    simp [qwenCompleteWithRetry, qwenSecondAttempt, h0, h1]
  · intro h0 h1
    simp [qwenCompleteWithRetry, qwenSecondAttempt, h0, h1, buildHttpErrorKind]
  · intro d s hs h0 h1
    rcases hs with rfl | rfl <;>
      simp [antigravityCompleteWithRetry, antigravitySecondAttempt, h0, h1]
  · intro s s2 hs hs2 h0 h1
    rcases hs with rfl | rfl <;> rcases hs2 with rfl | rfl <;>
      simp [antigravityCompleteWithRetry, antigravitySecondAttempt, h0, h1,
        buildHttpErrorKind]

/-- Witness for `oauth_auth_retry_exactly_once`: a Qwen server that 401s then
succeeds gives the result after two requests (flags false then true); an
Antigravity server that 403s twice raises AuthError after two requests. -/
theorem oauth_auth_retry_exactly_once_witness :
    qwenCompleteWithRetry true
        (fun n => if n = 0 then .httpError 401 else .ok (42 : Nat))
      = (.ok 42, [false, true])
      ∧ antigravityCompleteWithRetry (fun _ => (.httpError 403 : UpstreamResult Nat))
      = (.error .authError, [false, true]) :=
  ⟨(oauth_auth_retry_exactly_once
      (fun n => if n = 0 then .httpError 401 else .ok (42 : Nat))
      (fun _ => (.httpError 403 : UpstreamResult Nat))).1 42 rfl rfl,
    (oauth_auth_retry_exactly_once
      (fun n => if n = 0 then .httpError 401 else .ok (42 : Nat))
      (fun _ => (.httpError 403 : UpstreamResult Nat))).2.2.2 403 403
      (Or.inr rfl) (Or.inr rfl) rfl rfl⟩

/-- Helper: lookup in an enumerated name list. -/
theorem trackerLookup_enumFrom (l : List String) :
    ∀ (k : Nat) (n : String),
      trackerLookup (enumFrom k l) n
        = if n ∈ l then some (k + idxOfStr l n) else none := by
  induction l with
  | nil => intro k n; simp [enumFrom, trackerLookup]
  | cons m rest ih =>
      intro k n
      by_cases hm : m = n
      · subst hm
        simp [enumFrom, trackerLookup, idxOfStr]
      · have hne : n ≠ m := fun h => hm h.symm
        simp only [enumFrom, trackerLookup, if_neg hm, ih (k + 1), List.mem_cons]
        by_cases hn : n ∈ rest
        · rw [if_pos hn, if_pos (Or.inr hn : n = m ∨ n ∈ rest)]
          simp only [idxOfStr, if_neg hm]
          congr 1
          omega
        · simp [hn, hne]

/-- Helper: `firstOccsAux` over an append splits into two passes. -/
theorem firstOccsAux_append (l1 l2 : List String) :
    ∀ seen, firstOccsAux seen (l1 ++ l2) = firstOccsAux (firstOccsAux seen l1) l2 := by
  induction l1 with
  | nil => intro seen; rfl
  | cons n rest ih =>
      intro seen
      by_cases hn : n ∈ seen
      · simp only [List.cons_append, firstOccsAux, if_pos hn]
        exact ih seen
      · simp only [List.cons_append, firstOccsAux, if_neg hn]
        exact ih (seen ++ [n])

/-- Helper: `firstOccsAux` only appends to the seen list. -/
theorem firstOccsAux_extends (l : List String) :
    ∀ seen, ∃ extra, firstOccsAux seen l = seen ++ extra := by
  induction l with
  | nil => intro seen; exact ⟨[], by simp [firstOccsAux]⟩
  | cons n rest ih =>
      intro seen
      by_cases hn : n ∈ seen
      · obtain ⟨extra, he⟩ := ih seen
        exact ⟨extra, by simp [firstOccsAux, if_pos hn, he]⟩
      · obtain ⟨extra, he⟩ := ih (seen ++ [n])
        exact ⟨[n] ++ extra, by simp [firstOccsAux, if_neg hn, he]⟩

/-- Helper: membership in `firstOccsAux`. -/
theorem mem_firstOccsAux (l : List String) :
    ∀ (seen : List String) (n : String),
      n ∈ firstOccsAux seen l ↔ n ∈ seen ∨ n ∈ l := by
  induction l with
  | nil => intro seen n; simp [firstOccsAux]
  | cons m rest ih =>
      intro seen n
      by_cases hm : m ∈ seen
      · rw [firstOccsAux, if_pos hm, ih]
        constructor
        · rintro (h | h)
          · exact Or.inl h
          · exact Or.inr (List.mem_cons_of_mem m h)
        · rintro (h | h)
          · exact Or.inl h
          · rcases List.mem_cons.mp h with rfl | h2
            · exact Or.inl hm
            · exact Or.inr h2
      · rw [firstOccsAux, if_neg hm, ih]
        simp only [List.mem_append, List.mem_singleton, List.mem_cons]
        tauto

/-- Helper: membership in `firstOccs` is membership in the list. -/
theorem mem_firstOccs (l : List String) (n : String) :
    n ∈ firstOccs l ↔ n ∈ l := by
  rw [firstOccs, mem_firstOccsAux]
  simp

/-- Helper: `idxOfStr` ignores an appended tail for names of the front. -/
theorem idxOfStr_append_left (l l2 : List String) (n : String) (h : n ∈ l) :
    idxOfStr (l ++ l2) n = idxOfStr l n := by
  induction l with
  | nil => cases h
  | cons k rest ih =>
      by_cases hk : k = n
      · simp [idxOfStr, hk]
      · rcases List.mem_cons.mp h with rfl | h2
        · exact absurd rfl hk
        · simp [idxOfStr, hk, ih h2]

/-- Helper: a fresh name appended at the end sits at position `l.length`. -/
theorem idxOfStr_append_fresh (l : List String) (n : String) (h : n ∉ l) :
    idxOfStr (l ++ [n]) n = l.length := by
  induction l with
  | nil => simp [idxOfStr]
  | cons k rest ih =>
      have hk : k ≠ n := fun hc => h (hc ▸ List.mem_cons_self k rest)
      have h2 : n ∉ rest := fun hc => h (List.mem_cons_of_mem k hc)
      simp [idxOfStr, hk, ih h2]

/-- Helper: enumeration of a snoc. -/
theorem enumFrom_snoc (l : List String) :
    ∀ (k : Nat) (n : String),
      enumFrom k (l ++ [n]) = enumFrom k l ++ [(n, k + l.length)] := by
  induction l with
  | nil => intro k n; simp [enumFrom]
  | cons m rest ih =>
      intro k n
      show (m, k) :: enumFrom (k + 1) (rest ++ [n])
        = (m, k) :: enumFrom (k + 1) rest ++ [(n, k + (rest.length + 1))]
      rw [ih (k + 1)]
      have h2 : k + 1 + rest.length = k + (rest.length + 1) := by omega
      rw [h2]
      simp

/-- Helper: `firstOccs` of a snoc either keeps the list (seen name) or
appends the fresh name. -/
theorem firstOccs_snoc (pre : List String) (n : String) :
    firstOccs (pre ++ [n])
      = if n ∈ firstOccs pre then firstOccs pre else firstOccs pre ++ [n] := by
  rw [firstOccs, firstOccsAux_append]
  by_cases h : n ∈ firstOccsAux [] pre
  · rw [firstOccsAux, if_pos h, firstOccs] at *
    simp [firstOccsAux, h, firstOccs]
  · rw [firstOccs]
    simp [firstOccsAux, h]

/-- Helper: `firstOccs` of an extended list extends `firstOccs` of the
front. -/
theorem firstOccs_append_extends (pre rest : List String) :
    ∃ extra, firstOccs (pre ++ rest) = firstOccs pre ++ extra := by
  rw [firstOccs, firstOccsAux_append]
  exact firstOccsAux_extends rest (firstOccsAux [] pre)

/-- Helper: a name already first-seen in the front keeps its position in any
extension. -/
theorem idxOfStr_firstOccs_stable (pre rest : List String) (n : String)
    (h : n ∈ firstOccs pre) :
    idxOfStr (firstOccs (pre ++ rest)) n = idxOfStr (firstOccs pre) n := by
  obtain ⟨extra, he⟩ := firstOccs_append_extends pre rest
  rw [he, idxOfStr_append_left _ _ _ h]

/-- Helper: `namedPairs` distributes over append. -/
theorem namedPairs_append (l1 l2 : List ToolCall) :
    namedPairs (l1 ++ l2) = namedPairs l1 ++ namedPairs l2 := by
  simp [namedPairs, List.filterMap_append]

/-- Helper: `toolCallNames` distributes over append. -/
theorem toolCallNames_append (l1 l2 : List ToolCall) :
    toolCallNames (l1 ++ l2) = toolCallNames l1 ++ toolCallNames l2 := by
  simp [toolCallNames, namedPairs_append]

/-- Helper: index assignment never changes a call's function payload. -/
theorem assignIdxOne_function (st : ToolIdxState) (tc : ToolCall) :
    (assignIdxOne st tc).2.function = tc.function := by
  unfold assignIdxOne
  match hname : tc.function.name with
  | none => rfl
  | some n =>
      by_cases hne : n = ""
      · simp [hne]
      · simp only [if_neg hne]
        match trackerLookup st.tracker n with
        | some i => rfl
        | none => rfl

/-- Helper: index assignment preserves the sequence of truthy names. -/
theorem assignIdxList_names (tcs : List ToolCall) :
    ∀ st : ToolIdxState, toolCallNames (assignIdxList st tcs).2 = toolCallNames tcs := by
  induction tcs with
  | nil => intro st; rfl
  | cons tc rest ih =>
      intro st
      have hfn := assignIdxOne_function st tc
      simp only [assignIdxList, toolCallNames, namedPairs, List.filterMap_cons, hfn]
      match tc.function.name with
      | none => exact ih (assignIdxOne st tc).1
      | some n =>
          by_cases hne : n = ""
          · simp only [if_pos hne]
            exact ih (assignIdxOne st tc).1
          · simp only [if_neg hne, List.map_cons, List.cons.injEq, true_and]
            exact ih (assignIdxOne st tc).1

/-- Helper: the index-assignment loop keeps the tracker invariant, and every
emitted named call's index is the position of its name in the
first-appearance order of all names processed. -/
theorem assignIdxList_spec :
    ∀ (tcs : List ToolCall) (st : ToolIdxState) (pre : List String),
      TrackerInv st pre →
      TrackerInv (assignIdxList st tcs).1 (pre ++ toolCallNames tcs)
        ∧ ∀ p ∈ namedPairs (assignIdxList st tcs).2,
            p.1 ∈ firstOccs (pre ++ toolCallNames tcs)
              ∧ p.2 = idxOfStr (firstOccs (pre ++ toolCallNames tcs)) p.1 := by
  intro tcs
  induction tcs with
  | nil =>
      intro st pre h
      refine ⟨by simpa [assignIdxList, toolCallNames, namedPairs] using h, ?_⟩
      intro p hp
      simp [assignIdxList, namedPairs] at hp
  | cons tc rest ih =>
      intro st pre h
      match hname : tc.function.name with
      | none =>
          have hstep : assignIdxOne st tc = (st, tc) := by
            simp [assignIdxOne, hname]
          have hnames : toolCallNames (tc :: rest) = toolCallNames rest := by
            simp [toolCallNames, namedPairs, List.filterMap_cons, hname]
          obtain ⟨hinv, hip⟩ := ih st pre h
          refine ⟨by rw [hnames]; simpa [assignIdxList, hstep] using hinv, ?_⟩
          intro p hp
          rw [hnames]
          simp only [assignIdxList, hstep] at hp
          have hp2 : p ∈ namedPairs (assignIdxList st rest).2 := by
            simpa [namedPairs, List.filterMap_cons, hname] using hp
          exact hip p hp2
      | some n =>
          by_cases hne : n = ""
          · have hstep : assignIdxOne st tc = (st, tc) := by
              simp [assignIdxOne, hname, hne]
            have hnames : toolCallNames (tc :: rest) = toolCallNames rest := by
              simp [toolCallNames, namedPairs, List.filterMap_cons, hname, hne]
            obtain ⟨hinv, hip⟩ := ih st pre h
            refine ⟨by rw [hnames]; simpa [assignIdxList, hstep] using hinv, ?_⟩
            intro p hp
            rw [hnames]
            simp only [assignIdxList, hstep] at hp
            have hp2 : p ∈ namedPairs (assignIdxList st rest).2 := by
              simpa [namedPairs, List.filterMap_cons, hname, hne] using hp
            exact hip p hp2
          · -- a truthy name: look it up in the tracker
            have hlook : trackerLookup st.tracker n
                = if n ∈ firstOccs pre
                  then some (idxOfStr (firstOccs pre) n) else none := by
              rw [h.1, trackerLookup_enumFrom]
              simp
            have hnames : toolCallNames (tc :: rest) = n :: toolCallNames rest := by
              simp [toolCallNames, namedPairs, List.filterMap_cons, hname, hne]
            have hassoc : pre ++ toolCallNames (tc :: rest)
                = (pre ++ [n]) ++ toolCallNames rest := by
              rw [hnames]; simp
            by_cases hmem : n ∈ firstOccs pre
            · have hstep : assignIdxOne st tc
                  = (st, { tc with index := idxOfStr (firstOccs pre) n }) := by
                simp [assignIdxOne, hname, hne, hlook, hmem]
              have hfo : firstOccs (pre ++ [n]) = firstOccs pre := by
                rw [firstOccs_snoc, if_pos hmem]
              have h2 : TrackerInv st (pre ++ [n]) := by
                rw [TrackerInv, hfo]; exact h
              obtain ⟨hinv, hip⟩ := ih st (pre ++ [n]) h2
              refine ⟨by rw [hassoc]; simpa [assignIdxList, hstep] using hinv, ?_⟩
              intro p hp
              simp only [assignIdxList, hstep] at hp
              have hp2 : p = (n, idxOfStr (firstOccs pre) n)
                  ∨ p ∈ namedPairs (assignIdxList st rest).2 := by
                have := hp
                rw [show namedPairs ({ tc with index := idxOfStr (firstOccs pre) n }
                      :: (assignIdxList st rest).2)
                    = (n, idxOfStr (firstOccs pre) n)
                      :: namedPairs (assignIdxList st rest).2 from by
                  simp [namedPairs, List.filterMap_cons, hname, hne]] at this
                exact List.mem_cons.mp this
              rcases hp2 with rfl | hp2
              · refine ⟨?_, ?_⟩
                · rw [hassoc]
                  have : n ∈ firstOccs (pre ++ [n]) := by rw [hfo]; exact hmem
                  rw [mem_firstOccs] at this ⊢
                  exact List.mem_append_left _ this
                · rw [hassoc, idxOfStr_firstOccs_stable (pre ++ [n]) _ n
                    (by rw [hfo]; exact hmem), hfo]
              · have := hip p hp2
                rw [hassoc]
                exact this
            · have hstep : assignIdxOne st tc
                  = (⟨st.tracker ++ [(n, st.next)], st.next + 1⟩,
                      { tc with index := st.next }) := by
                simp [assignIdxOne, hname, hne, hlook, hmem]
              have hfo : firstOccs (pre ++ [n]) = firstOccs pre ++ [n] := by
                rw [firstOccs_snoc, if_neg hmem]
              have h2 : TrackerInv
                  ⟨st.tracker ++ [(n, st.next)], st.next + 1⟩ (pre ++ [n]) := by
                constructor
                · show st.tracker ++ [(n, st.next)] = enumFrom 0 (firstOccs (pre ++ [n]))
                  rw [hfo, enumFrom_snoc, h.1, h.2]
                  simp
                · show st.next + 1 = (firstOccs (pre ++ [n])).length
                  rw [hfo, h.2]
                  simp
              obtain ⟨hinv, hip⟩ := ih ⟨st.tracker ++ [(n, st.next)], st.next + 1⟩
                (pre ++ [n]) h2
              refine ⟨by rw [hassoc]; simpa [assignIdxList, hstep] using hinv, ?_⟩
              intro p hp
              simp only [assignIdxList, hstep] at hp
              have hp2 : p = (n, st.next)
                  ∨ p ∈ namedPairs
                      (assignIdxList ⟨st.tracker ++ [(n, st.next)], st.next + 1⟩ rest).2 := by
                have := hp
                rw [show namedPairs ({ tc with index := st.next }
                      :: (assignIdxList ⟨st.tracker ++ [(n, st.next)], st.next + 1⟩ rest).2)
                    = (n, st.next)
                      :: namedPairs
                          (assignIdxList ⟨st.tracker ++ [(n, st.next)], st.next + 1⟩ rest).2 from by
                  simp [namedPairs, List.filterMap_cons, hname, hne]] at this
                exact List.mem_cons.mp this
              have hnmem : n ∈ firstOccs (pre ++ [n]) := by
                rw [hfo]
                exact List.mem_append_right _ (List.mem_singleton.mpr rfl)
              rcases hp2 with rfl | hp2
              · refine ⟨?_, ?_⟩
                · rw [hassoc]
                  rw [mem_firstOccs] at hnmem ⊢
                  exact List.mem_append_left _ hnmem
                · rw [hassoc, idxOfStr_firstOccs_stable (pre ++ [n]) _ n hnmem, hfo,
                    idxOfStr_append_fresh _ _ hmem, h.2]
              · have := hip p hp2
                rw [hassoc]
                exact this

/-- Helper: across a whole stream, every emitted named call's index is the
position of its name in the first-appearance order of `pre` extended by all
names emitted. -/
theorem streamEmitted_spec :
    ∀ (chunks : List (List GPart)) (st : ToolIdxState) (pre : List String),
      TrackerInv st pre →
      ∀ p ∈ namedPairs (streamEmitted st chunks),
        p.1 ∈ firstOccs (pre ++ toolCallNames (streamEmitted st chunks))
          ∧ p.2 = idxOfStr
              (firstOccs (pre ++ toolCallNames (streamEmitted st chunks))) p.1 := by
  intro chunks
  induction chunks with
  | nil =>
      intro st pre h p hp
      simp [streamEmitted, antigravityStreamChunks, namedPairs] at hp
  | cons parts rest ih =>
      intro st pre h p hp
      match hcd : (antigravityHandleChunkData parts).2.2 with
      | none =>
          have hemit : streamEmitted st (parts :: rest) = streamEmitted st rest := by
            simp [streamEmitted, antigravityStreamChunks, hcd, List.filterMap_cons]
          rw [hemit] at hp ⊢
          exact ih st pre h p hp
      | some tcs =>
          have hemit : streamEmitted st (parts :: rest)
              = (assignIdxList st tcs).2
                ++ streamEmitted (assignIdxList st tcs).1 rest := by
            simp [streamEmitted, antigravityStreamChunks, hcd, List.filterMap_cons]
          obtain ⟨hinv, hpa⟩ := assignIdxList_spec tcs st pre h
          have hnamesA : toolCallNames (assignIdxList st tcs).2 = toolCallNames tcs :=
            assignIdxList_names tcs st
          have hnames : toolCallNames (streamEmitted st (parts :: rest))
              = toolCallNames tcs
                ++ toolCallNames (streamEmitted (assignIdxList st tcs).1 rest) := by
            rw [hemit, toolCallNames_append, hnamesA]
          rw [hemit, namedPairs_append, List.mem_append] at hp
          rw [hnames, ← List.append_assoc]
          rcases hp with hp | hp
          · obtain ⟨hmem, hidx⟩ := hpa p hp
            refine ⟨?_, ?_⟩
            · obtain ⟨extra, he⟩ := firstOccs_append_extends (pre ++ toolCallNames tcs)
                (toolCallNames (streamEmitted (assignIdxList st tcs).1 rest))
              rw [he]
              exact List.mem_append_left _ hmem
            · rw [idxOfStr_firstOccs_stable _ _ _ hmem]
              exact hidx
          · have := ih (assignIdxList st tcs).1 (pre ++ toolCallNames tcs) hinv p hp
            exact this

/-- Helper: `firstOccsAux` keeps the seen list duplicate-free. -/
theorem firstOccsAux_nodup (l : List String) :
    ∀ seen : List String, seen.Nodup → (firstOccsAux seen l).Nodup := by
  induction l with
  | nil => intro seen h; exact h
  | cons n rest ih =>
      intro seen h
      by_cases hn : n ∈ seen
      · rw [firstOccsAux, if_pos hn]
        exact ih seen h
      · rw [firstOccsAux, if_neg hn]
        refine ih (seen ++ [n]) ?_
        simp [List.nodup_append, h, hn]

/-- Helper: `firstOccs` lists are duplicate-free. -/
theorem firstOccs_nodup (l : List String) : (firstOccs l).Nodup :=
  firstOccsAux_nodup l [] List.nodup_nil

/-- Helper: over a duplicate-free list, mapping each element to its position
yields `0, 1, ..., length - 1`. -/
theorem idxOfStr_map_self (l : List String) (h : l.Nodup) :
    l.map (idxOfStr l) = List.range l.length := by
  induction l with
  | nil => rfl
  | cons n rest ih =>
      have hn : n ∉ rest := (List.nodup_cons.mp h).1
      have hrest : rest.Nodup := (List.nodup_cons.mp h).2
      have hmap : rest.map (idxOfStr (n :: rest))
          = rest.map (fun m => idxOfStr rest m + 1) := by
        refine List.map_congr_left ?_
        intro m hm
        have : n ≠ m := fun hc => hn (hc ▸ hm)
        simp [idxOfStr, this]
      rw [List.map_cons, hmap, show rest.map (fun m => idxOfStr rest m + 1)
          = (rest.map (idxOfStr rest)).map (fun i => i + 1) from by
        rw [List.map_map]; rfl, ih hrest]
      simp [idxOfStr, List.range_succ_eq_map, List.length_cons]

/-- Helper: the chunk handler's tool calls come from the last functionCall
part. -/
theorem handleChunkData_last_aux (parts : List GPart) :
    ∀ acc : String × String × Option (List ToolCall),
      (parts.foldl
        (fun acc p =>
          ((match p.text with
            | some t => if t ≠ "" then acc.1 ++ t else acc.1
            | none => acc.1),
           (if p.thought then p.text.getD "" else acc.2.1),
           (match p.functionCall with
            | some fc => some [antigravityParseSingleFC fc]
            | none => acc.2.2))) acc).2.2
        = match antigravityLastFunctionCall parts with
          | some fc => some [antigravityParseSingleFC fc]
          | none => acc.2.2 := by
  induction parts with
  | nil => intro acc; rfl
  | cons p rest ih =>
      intro acc
      rw [List.foldl_cons, ih]
      match hlast : antigravityLastFunctionCall rest with
      | some fc => simp [antigravityLastFunctionCall, hlast]
      | none =>
          match hp : p.functionCall with
          | some fc => simp [antigravityLastFunctionCall, hlast, hp]
          | none => simp [antigravityLastFunctionCall, hlast, hp]

/-- Helper: `_handle_chunk_data` keeps only the last functionCall part. -/
theorem antigravityHandleChunkData_last (parts : List GPart) :
    (antigravityHandleChunkData parts).2.2
      = (antigravityLastFunctionCall parts).map
          (fun fc => [antigravityParseSingleFC fc]) := by
  rw [antigravityHandleChunkData, handleChunkData_last_aux]
  match h : antigravityLastFunctionCall parts with
  | some fc => rfl
  | none => rfl

/-- Claim C2 counterexample: a single chunk whose parts carry two
functionCall fragments, named "a" then "b" (J = 2 distinct names in the
stream).  The streaming handler overwrites `tool_calls` at each functionCall
part, so only the last fragment ("b") is emitted: no ToolCall named "a" is
ever produced and the assigned indices are [0], not 0..1. -/
theorem antigravity_stream_index_counterexample :
    namedPairs (antigravityStreamToolCalls [[gpFC "a", gpFC "b"]]) = [("b", 0)]
      ∧ "a" ∉ (namedPairs (antigravityStreamToolCalls [[gpFC "a", gpFC "b"]])).map
          Prod.fst
      ∧ (namedPairs (antigravityStreamToolCalls [[gpFC "a", gpFC "b"]])).map
          Prod.snd ≠ [0, 1] := by
  refine ⟨by decide, by decide, by decide⟩

/-- Claim C2 (amended): within each chunk only the *last* functionCall part
yields a ToolCall; over the ToolCalls the stream emits, every call with a
truthy name has its index equal to the position of its name in the
first-appearance order of the emitted names — so all fragments of one name
share one index, and the indices assigned are exactly 0..J'-1 in
first-appearance order, where J' counts the distinct names of *emitted*
calls (not of all fragments in the stream). -/
theorem antigravity_stream_index_assignment (chunks : List (List GPart)) :
    (∀ parts : List GPart,
        (antigravityHandleChunkData parts).2.2
          = (antigravityLastFunctionCall parts).map
              (fun fc => [antigravityParseSingleFC fc]))
      ∧ (∀ p ∈ namedPairs (antigravityStreamToolCalls chunks),
          p.1 ∈ firstOccs (toolCallNames (antigravityStreamToolCalls chunks))
            ∧ p.2 = idxOfStr
                (firstOccs (toolCallNames (antigravityStreamToolCalls chunks))) p.1)
      ∧ (∀ p ∈ namedPairs (antigravityStreamToolCalls chunks),
          ∀ q ∈ namedPairs (antigravityStreamToolCalls chunks),
            p.1 = q.1 → p.2 = q.2)
      ∧ (firstOccs (toolCallNames (antigravityStreamToolCalls chunks))).Nodup
      ∧ (firstOccs (toolCallNames (antigravityStreamToolCalls chunks))).map
          (idxOfStr (firstOccs (toolCallNames (antigravityStreamToolCalls chunks))))
        = List.range
            (firstOccs (toolCallNames (antigravityStreamToolCalls chunks))).length := by
  have hinv : TrackerInv ⟨[], 0⟩ [] := ⟨rfl, rfl⟩
  have hmain : ∀ p ∈ namedPairs (antigravityStreamToolCalls chunks),
      p.1 ∈ firstOccs (toolCallNames (antigravityStreamToolCalls chunks))
        ∧ p.2 = idxOfStr
            (firstOccs (toolCallNames (antigravityStreamToolCalls chunks))) p.1 := by
    intro p hp
    have := streamEmitted_spec chunks ⟨[], 0⟩ [] hinv p hp
    simpa [antigravityStreamToolCalls] using this
  refine ⟨antigravityHandleChunkData_last, hmain, ?_, firstOccs_nodup _, ?_⟩
  · intro p hp q hq heq
    rw [(hmain p hp).2, (hmain q hq).2, heq]
  · exact idxOfStr_map_self _ (firstOccs_nodup _)

/-- Witness for `antigravity_stream_index_assignment`: on the stream with
chunks calling "r", "w", "r", the third fragment (name "r") reuses index 0,
the first-appearance position of "r". -/
theorem antigravity_stream_index_assignment_witness :
    ("r", 0).1 ∈ firstOccs (toolCallNames
        (antigravityStreamToolCalls [[gpFC "r"], [gpFC "w"], [gpFC "r"]]))
      ∧ ("r", 0).2 = idxOfStr (firstOccs (toolCallNames
          (antigravityStreamToolCalls [[gpFC "r"], [gpFC "w"], [gpFC "r"]]))) ("r", 0).1 :=
  (antigravity_stream_index_assignment [[gpFC "r"], [gpFC "w"], [gpFC "r"]]).2.1
    ("r", 0) (by decide)
